import Mathlib

/-!
Shallow embedding of the `tacit_decoder` trace decoder: the packet codec
(`src/frontend/packet.rs`), the branch-predictor model
(`src/frontend/bp_double_saturating_counter.rs`), the reconstruction engine
(`src/main.rs`) and the stack unwinder (`src/backend/stack_unwinder.rs`).
Machine integers (`u64`) are modelled as `Nat` with explicit reduction
modulo `2 ^ 64` wherever Rust wrapping semantics applies; Rust panics and
`unwrap` failures are modelled as `Option.none`.
-/

namespace Tacit

/-- Wrap a natural number to 64 bits, the value set of Rust `u64`. -/
def w64 (n : Nat) : Nat := n % 2 ^ 64

/-- Rust `(pc as i64 + off) as u64`: signed addition reinterpreted as `u64`. -/
def addSigned64 (pc : Nat) (off : Int) : Nat :=
  (((pc : Int) + off).emod (2 ^ 64)).toNat

/-! ## Headers and enums (`c_header.rs`, `f_header.rs`, `trap_type.rs`, `br_mode.rs`) -/

/-- `CHeader` from `src/frontend/c_header.rs`. -/
inductive CHeader | CTb | CNt | CNa | CIj
deriving DecidableEq, Repr

/-- `FHeader` from `src/frontend/f_header.rs`. -/
inductive FHeader | FTb | FNt | FUj | FIj | FTrap | FSync | FVal | FRes
deriving DecidableEq, Repr

/-- `TrapType` from `src/frontend/trap_type.rs`. -/
inductive TrapType | TNone | TException | TInterrupt | TReturn
deriving DecidableEq, Repr

/-- `BrMode` from `src/frontend/br_mode.rs`. -/
inductive BrMode | BrTarget | BrHistory | BrPredict | BrReserved
deriving DecidableEq, Repr

/-- `impl From<u8> for CHeader`; the `_` arm panics (`none`). -/
def CHeader.fromU8 (v : Nat) : Option CHeader :=
  if v = 0b00 then some .CTb
  else if v = 0b01 then some .CNt
  else if v = 0b10 then some .CNa
  else if v = 0b11 then some .CIj
  else none

/-- `impl From<u8> for FHeader`; the `_` arm panics (`none`). -/
def FHeader.fromU8 (v : Nat) : Option FHeader :=
  if v = 0b000 then some .FTb
  else if v = 0b001 then some .FNt
  else if v = 0b010 then some .FUj
  else if v = 0b011 then some .FIj
  else if v = 0b100 then some .FTrap
  else if v = 0b101 then some .FSync
  else if v = 0b110 then some .FVal
  else if v = 0b111 then some .FRes
  else none

/-- `impl From<CHeader> for FHeader`; converting `CNa` panics (`none`). -/
def FHeader.fromCHeader : CHeader → Option FHeader
  | .CTb => some .FTb
  | .CNt => some .FNt
  | .CIj => some .FIj
  | .CNa => none

/-- `impl From<u8> for TrapType`; values other than 0, 1, 2, 4 panic (`none`). -/
def TrapType.fromU8 (v : Nat) : Option TrapType :=
  if v = 0b000 then some .TNone
  else if v = 0b001 then some .TException
  else if v = 0b010 then some .TInterrupt
  else if v = 0b100 then some .TReturn
  else none

/-- `impl From<u64> for BrMode`; other values panic (`none`). -/
def BrMode.fromU64 (v : Nat) : Option BrMode :=
  if v = 0b00 then some .BrTarget
  else if v = 0b01 then some .BrHistory
  else if v = 0b10 then some .BrPredict
  else if v = 0b11 then some .BrReserved
  else none

/-! ## Packets and the byte codec (`src/frontend/packet.rs`)

The byte stream is a `List Nat` of byte values; `read_u8` popping from an
empty stream is the `Err` returned by `read_exact` at EOF. -/

/-- The decoded `Packet` record from `src/frontend/packet.rs`. -/
structure Packet where
  is_compressed : Bool
  c_header : CHeader
  f_header : FHeader
  trap_type : TrapType
  target_address : Nat
  trap_address : Nat
  timestamp : Nat
deriving DecidableEq, Repr

/-- `Packet::new()`: the default packet. -/
def Packet.new : Packet :=
  { is_compressed := false, c_header := .CNa, f_header := .FRes,
    trap_type := .TNone, target_address := 0, trap_address := 0, timestamp := 0 }

/-- `read_u8`: pop one byte, or fail at EOF. -/
def read_u8 : List Nat → Option (Nat × List Nat)
  | [] => none
  | b :: rest => some (b, rest)

/-- The byte-gathering loop of `read_varint`: consume bytes until one with
bit `0x80` set (inclusive); EOF mid-sequence is an error. Returns the
consumed bytes in stream order and the remaining stream. -/
def varintBytes : List Nat → Option (List Nat × List Nat)
  | [] => none
  | b :: rest =>
    if b &&& 0x80 = 0x80 then some ([b], rest)
    else
      match varintBytes rest with
      | none => none
      | some (bs, r) => some (b :: bs, r)

/-- The fold of `read_varint`: over the reversed consumed bytes,
`acc := (acc << 7) | (byte & 0x7f)` on `u64`. -/
def varintFold (bs : List Nat) : Nat :=
  bs.reverse.foldl (fun acc x => w64 (acc <<< 7) ||| (x &&& 0x7f)) 0

/-- `read_varint` from `src/frontend/packet.rs`. -/
def read_varint (s : List Nat) : Option (Nat × List Nat) :=
  match varintBytes s with
  | none => none
  | some (bs, rest) => some (varintFold bs, rest)

/-- `read_packet` from `src/frontend/packet.rs`. `none` is an `Err` from a
byte read or a panic in a `From` conversion; note that the reserved
`FVal`/`FRes` headers do NOT fail: that arm only prints a message and the
function returns `Ok` with the packet still holding its defaults. -/
def read_packet (s : List Nat) : Option (Packet × List Nat) :=
  match read_u8 s with
  | none => none
  | some (first_byte, s) =>
    match CHeader.fromU8 (first_byte &&& 0x03) with
    | none => none
    | some c_header =>
      match c_header with
      | .CTb | .CNt | .CIj =>
        match FHeader.fromCHeader c_header with
        | none => none
        | some fh =>
          some ({ Packet.new with
                    timestamp := (first_byte &&& 0xFC) >>> 2,
                    f_header := fh,
                    c_header := c_header,
                    is_compressed := true }, s)
      | .CNa =>
        match FHeader.fromU8 ((first_byte &&& 0x1C) >>> 2) with
        | none => none
        | some f_header =>
          match f_header with
          | .FTb | .FNt | .FIj =>
            match read_varint s with
            | none => none
            | some (timestamp, s) =>
              some ({ Packet.new with
                        is_compressed := false,
                        timestamp := timestamp,
                        f_header := f_header,
                        c_header := .CNa }, s)
          | .FUj =>
            match read_varint s with
            | none => none
            | some (target_address, s) =>
              match read_varint s with
              | none => none
              | some (timestamp, s) =>
                some ({ Packet.new with
                          is_compressed := false,
                          target_address := target_address,
                          timestamp := timestamp,
                          f_header := .FUj,
                          c_header := .CNa }, s)
          | .FSync =>
            match read_varint s with
            | none => none
            | some (_, s) =>
              match read_varint s with
              | none => none
              | some (target_address, s) =>
                match read_varint s with
                | none => none
                | some (timestamp, s) =>
                  some ({ Packet.new with
                            is_compressed := false,
                            target_address := target_address,
                            timestamp := timestamp,
                            f_header := .FSync,
                            c_header := .CNa }, s)
          | .FTrap =>
            match TrapType.fromU8 ((first_byte &&& 0xE0) >>> 5) with
            | none => none
            | some trap_type =>
              match read_varint s with
              | none => none
              | some (trap_address, s) =>
                match read_varint s with
                | none => none
                | some (target_address, s) =>
                  match read_varint s with
                  | none => none
                  | some (timestamp, s) =>
                    some ({ Packet.new with
                              is_compressed := false,
                              trap_type := trap_type,
                              trap_address := trap_address,
                              target_address := target_address,
                              timestamp := timestamp,
                              f_header := .FTrap,
                              c_header := .CNa }, s)
          | _ =>
            -- `_` arm: `println!("Invalid FHeader value")` then fall through
            -- to `Ok(packet)` with the packet untouched (defaults).
            some ({ Packet.new with is_compressed := false }, s)

/-! ## Events and bus entries (`src/backend/event.rs`) -/

/-- `Event` from `src/backend/event.rs`. -/
inductive Event
  | None | Start | TakenBranch | NonTakenBranch | UninferableJump
  | InferrableJump | End | TrapException | TrapInterrupt | TrapReturn
  | BPHit | BPMiss | Panic
deriving DecidableEq, Repr

/-- `Event::from_trap_type`; `TNone` panics (`none`). -/
def Event.from_trap_type : TrapType → Option Event
  | .TException => some .TrapException
  | .TInterrupt => some .TrapInterrupt
  | .TReturn => some .TrapReturn
  | .TNone => none

/-- Decoded-instruction record: `InsnInfo` from `src/backend/stack_unwinder.rs`,
also standing in for the capstone `Insn` fields `main.rs` reads
(`address`, `len`, `mnemonic`, `op_str`). -/
structure InsnInfo where
  address : Nat
  len : Nat
  bytes : List Nat
  mnemonic : String
  op_str : String
deriving DecidableEq, Repr

/-- `Entry`, the unit broadcast on the bus (`src/backend/event.rs`). -/
structure Entry where
  event : Event
  arc : Nat × Nat
  insn : Option InsnInfo
  timestamp : Option Nat
deriving DecidableEq, Repr

/-- `Entry::new_timed_event`. -/
def Entry.new_timed_event (event : Event) (timestamp fr toAddr : Nat) : Entry :=
  { event := event, arc := (fr, toAddr), insn := none, timestamp := some timestamp }

/-- `Entry::new_insn`: a `None` entry for one walked instruction, arc
`(address, address + len)`. -/
def Entry.new_insn (insn : InsnInfo) : Entry :=
  { event := .None, arc := (insn.address, w64 (insn.address + insn.len)),
    insn := some insn, timestamp := none }

/-- `Entry::new_timed_trap`; panics (`none`) on `TNone`. -/
def Entry.new_timed_trap (trap_type : TrapType) (timestamp fr toAddr : Nat) :
    Option Entry :=
  match Event.from_trap_type trap_type with
  | none => none
  | some ev => some { event := ev, arc := (fr, toAddr), insn := none,
                      timestamp := some timestamp }

/-! ## Branch predictor (`src/frontend/bp_double_saturating_counter.rs`) -/

/-- `BpState`: the two-bit saturating counter states. -/
inductive BpState | StrongNotTaken | WeakNotTaken | WeakTaken | StrongTaken
deriving DecidableEq, Repr

/-- `BpState::_increment`. -/
def BpState.increment : BpState → BpState
  | .StrongNotTaken => .WeakNotTaken
  | .WeakNotTaken => .WeakTaken
  | .WeakTaken => .StrongTaken
  | .StrongTaken => .StrongTaken

/-- `BpState::_decrement`. -/
def BpState.decrement : BpState → BpState
  | .StrongNotTaken => .StrongNotTaken
  | .WeakNotTaken => .StrongNotTaken
  | .WeakTaken => .WeakNotTaken
  | .StrongTaken => .WeakTaken

/-- `BpState::judge`: the prediction read out of a state. -/
def BpState.judge : BpState → Bool
  | .StrongNotTaken => false
  | .WeakNotTaken => false
  | .WeakTaken => true
  | .StrongTaken => true

/-- `BpDoubleSaturatingCounter`. -/
structure BpDoubleSaturatingCounter where
  num_entries : Nat
  counters : List BpState
deriving DecidableEq, Repr

/-- `BpDoubleSaturatingCounter::new`: all counters start at `WeakNotTaken`. -/
def BpDoubleSaturatingCounter.new (num_entries : Nat) : BpDoubleSaturatingCounter :=
  { num_entries := num_entries, counters := List.replicate num_entries .WeakNotTaken }

/-- `BpDoubleSaturatingCounter::predict`: read the prediction at index
`(pc >> 1) % num_entries`, update the counter by the hit/miss outcome, and
return the pre-update prediction. `none` models the Rust panics: `% 0`
when the table is empty, or an out-of-bounds `Vec` index. -/
def BpDoubleSaturatingCounter.predict (c : BpDoubleSaturatingCounter)
    (pc : Nat) (hit : Bool) : Option (Bool × BpDoubleSaturatingCounter) :=
  if c.num_entries = 0 then none
  else
    let index := (pc >>> 1) % c.num_entries
    match c.counters.get? index with
    | none => none
    | some state =>
      let prediction := state.judge
      let newState :=
        if hit = false then
          if prediction = true then state.decrement else state.increment
        else
          if prediction = true then state.increment else state.decrement
      some (prediction, { c with counters := c.counters.set index newState })

/-! ## Stack unwinder (`src/backend/stack_unwinder.rs`)

`IndexMap` and `HashMap` are modelled as association lists with `List.lookup`;
an indexing panic (`map[key]` on a missing key) or an `unwrap` on a missing
instruction is `none`. The Rust `Vec` frame stack pushes and pops at its end;
the Lean list stores the stack top-first (list head = `Vec` end). -/

/-- `SymbolInfo` from `src/backend/stack_unwinder.rs`. -/
structure SymbolInfo where
  name : String
  index : Nat
  line : Nat
  file : String
deriving DecidableEq, Repr

/-- `StackUnwinder` state. -/
structure StackUnwinder where
  func_symbol_map : List (Nat × SymbolInfo)
  idx_2_addr_range : List (Nat × (Nat × Nat))
  insn_map : List (Nat × InsnInfo)
  frame_stack : List Nat
deriving DecidableEq, Repr

/-- The test `prev_insn.mnemonic == "ret" || (prev_insn.mnemonic == "c.jr" &&
prev_insn.op_str == "ra")` guarding the unwind loop of `step_uj`. -/
def isRetInsn (i : InsnInfo) : Bool :=
  i.mnemonic == "ret" || (i.mnemonic == "c.jr" && i.op_str == "ra")

/-- Return type of `step_uj`: `(success, frame_stack_size, closed_frames,
opened_frame)`. -/
structure UjResult where
  success : Bool
  depth : Nat
  closed : List SymbolInfo
  opened : Option SymbolInfo
deriving DecidableEq, Repr

/-- The `loop` inside `step_uj`: peek the top frame's address range; stop if
the target lies inside it; otherwise pop the frame into `closed` and repeat.
On an empty stack, check `target` for a tail call. Returns the result and the
remaining frame stack; `none` is an indexing panic on a missing map key. -/
def stepUjLoop (fsm : List (Nat × SymbolInfo))
    (ranges : List (Nat × (Nat × Nat))) (target : Nat)
    (closed : List SymbolInfo) :
    List Nat → Option (UjResult × List Nat)
  | top :: rest =>
    match ranges.lookup top with
    | none => none
    | some (start, stop) =>
      if target ≥ start ∧ target < stop then
        some ({ success := true, depth := (top :: rest).length,
                closed := closed, opened := none }, top :: rest)
      else
        match fsm.lookup start with
        | none => none
        | some sym => stepUjLoop fsm ranges target (closed ++ [sym]) rest
  | [] =>
    match fsm.lookup target with
    | some sym =>
      some ({ success := true, depth := 1, closed := closed,
              opened := some sym }, [sym.index])
    | none =>
      some ({ success := true, depth := 0, closed := closed,
              opened := none }, [])

/-- `StackUnwinder::step_uj`. Returns the result tuple and the updated
unwinder; `none` models a panic (failed `assert!`, `unwrap` on a missing
instruction, or a missing map key inside the loop). Note the order of the
source: the instruction at `entry.arc.0` is fetched (and its absence panics)
BEFORE the empty-stack early return, and the `event` is never consulted
beyond the initial assertion. -/
def step_uj (u : StackUnwinder) (entry : Entry) :
    Option (UjResult × StackUnwinder) :=
  if ¬(entry.event = Event.UninferableJump ∨ entry.event = Event.TrapReturn) then
    none
  else
    match u.insn_map.lookup entry.arc.1 with
    | none => none
    | some prev_insn =>
      if u.frame_stack.isEmpty then
        some ({ success := false, depth := u.frame_stack.length,
                closed := [], opened := none }, u)
      else if isRetInsn prev_insn then
        match stepUjLoop u.func_symbol_map u.idx_2_addr_range entry.arc.2 []
            u.frame_stack with
        | none => none
        | some (r, st) => some (r, { u with frame_stack := st })
      else
        some ({ success := false, depth := u.frame_stack.length,
                closed := [], opened := none }, u)

/-! ## Reconstruction engine (`src/main.rs`)

The producer loop of `trace_decoder` is embedded as a step function over the
mutable state `(pc, timestamp, bp_counter)`, driven by the list of packets the
`while let Ok(packet) = read_packet(..)` loop obtains. Broadcasting on the bus
is collecting entries into a list. The unbounded `loop`s of `step_bb` and
`step_bb_until` take a fuel argument; exhausted fuel is folded into the same
`none`/`abort` outcome as a Rust panic. On a panic the entries broadcast
before it are still returned (the consumers have already seen them). -/

/-- `BRANCH_OPCODES` from `src/main.rs`. -/
def BRANCH_OPCODES : List String :=
  ["beq", "bge", "bgeu", "blt", "bltu", "bne", "beqz", "bnez",
   "bgez", "blez", "bltz", "bgtz", "bgt", "ble", "bgtu", "bleu",
   "c.beqz", "c.bnez", "c.bltz", "c.bgez"]

/-- `IJ_OPCODES` from `src/main.rs`. -/
def IJ_OPCODES : List String := ["jal", "j", "call", "tail", "c.j", "c.jal"]

/-- `UJ_OPCODES` from `src/main.rs`. -/
def UJ_OPCODES : List String := ["jalr", "jr", "c.jr", "c.jalr", "ret"]

/-- `refund_addr` from `src/main.rs`: `addr << 1` on `u64`. -/
def refund_addr (addr : Nat) : Nat := w64 (addr <<< 1)

/-- Value of one digit character in the given radix, as in Rust
`from_str_radix`. -/
def digitVal (base : Nat) (c : Char) : Option Nat :=
  if '0' ≤ c ∧ c ≤ '9' then
    if c.toNat - 48 < base then some (c.toNat - 48) else none
  else if 'a' ≤ c ∧ c ≤ 'z' then
    if c.toNat - 87 < base then some (c.toNat - 87) else none
  else if 'A' ≤ c ∧ c ≤ 'Z' then
    if c.toNat - 55 < base then some (c.toNat - 55) else none
  else none

/-- Digit-string parse in a radix; empty or non-digit input is `none`. -/
def parseRadixNat (base : Nat) (s : String) : Option Nat :=
  if s.isEmpty then none
  else
    s.data.foldl
      (fun acc c =>
        match acc, digitVal base c with
        | some a, some d => some (a * base + d)
        | _, _ => none)
      (some 0)

/-- `i64::from_str_radix(...).unwrap()` on a digit string: parse, failing
(panic, `none`) on malformed input or `i64` overflow. -/
def i64FromStrRadix (s : String) (base : Nat) : Option Int :=
  match parseRadixNat base s with
  | none => none
  | some v => if v ≤ 2 ^ 63 - 1 then some (v : Int) else none

/-- `compute_offset` from `src/main.rs`: take the last comma-separated
operand of `op_str`, trim it, and parse it as a signed hex or decimal
offset. `none` models the `unwrap` panics on a malformed operand. -/
def compute_offset (insn : InsnInfo) : Option Int :=
  let offset := ((insn.op_str.splitOn ",").getLastD "").trim
  if offset.startsWith "-0x" then
    (i64FromStrRadix (offset.drop 3) 16).map (fun v => v * (-1))
  else if offset.startsWith "0x" then
    i64FromStrRadix (offset.drop 2) 16
  else if offset.startsWith "-" then
    (i64FromStrRadix (offset.drop 1) 10).map (fun v => v * (-1))
  else
    i64FromStrRadix offset 10

/-- `step_bb` from `src/main.rs`: walk instructions forward from `pc`,
broadcasting a `None` entry for each, until a control-flow boundary. In
`BrTarget` mode direct jumps are boundaries like branches and indirect
jumps; in the other modes direct jumps are taken transparently. Returns the
broadcast entries and the final `pc` (`none` = missing instruction,
offset-parse panic, or exhausted fuel). -/
def step_bb (insn_map : List (Nat × InsnInfo)) (br_mode : BrMode) :
    Nat → Nat → List Entry × Option Nat
  | 0, _ => ([], none)
  | fuel + 1, pc =>
    match insn_map.lookup pc with
    | none => ([], none)
    | some insn =>
      let entry := Entry.new_insn insn
      if br_mode = BrMode.BrTarget then
        if BRANCH_OPCODES.contains insn.mnemonic
            || IJ_OPCODES.contains insn.mnemonic
            || UJ_OPCODES.contains insn.mnemonic then
          ([entry], some pc)
        else
          let (es, r) := step_bb insn_map br_mode fuel (w64 (pc + insn.len))
          (entry :: es, r)
      else
        if BRANCH_OPCODES.contains insn.mnemonic
            || UJ_OPCODES.contains insn.mnemonic then
          ([entry], some pc)
        else if IJ_OPCODES.contains insn.mnemonic then
          match compute_offset insn with
          | none => ([entry], none)
          | some off =>
            let (es, r) := step_bb insn_map br_mode fuel (addSigned64 pc off)
            (entry :: es, r)
        else
          let (es, r) := step_bb insn_map br_mode fuel (w64 (pc + insn.len))
          (entry :: es, r)

/-- `step_bb_until` from `src/main.rs`: walk forward broadcasting `None`
entries, stopping at a branch or direct jump, or once `pc` equals
`target_pc`. -/
def step_bb_until (insn_map : List (Nat × InsnInfo)) (target_pc : Nat) :
    Nat → Nat → List Entry × Option Nat
  | 0, _ => ([], none)
  | fuel + 1, pc =>
    match insn_map.lookup pc with
    | none => ([], none)
    | some insn =>
      let entry := Entry.new_insn insn
      if BRANCH_OPCODES.contains insn.mnemonic
          || IJ_OPCODES.contains insn.mnemonic then
        ([entry], some pc)
      else if pc = target_pc then
        ([entry], some pc)
      else
        let (es, r) := step_bb_until insn_map target_pc fuel (w64 (pc + insn.len))
        (entry :: es, r)

/-- The producer's mutable state: current `pc`, running `timestamp`, and
the branch-predictor counters. -/
structure DecSt where
  pc : Nat
  timestamp : Nat
  bp : BpDoubleSaturatingCounter
deriving DecidableEq, Repr

/-- Outcome of handling one packet: continue the loop with a new state,
break out of it (`FSync`), or abort by panic. -/
inductive Outcome
  | cont (st : DecSt)
  | stop
  | abort
deriving DecidableEq, Repr

/-- `mode_is_predict` from `src/main.rs`: `BrPredict` or `BrHistory`. -/
def mode_is_predict (br_mode : BrMode) : Bool :=
  br_mode == BrMode.BrPredict || br_mode == BrMode.BrHistory

/-- The `for _ in 0..packet.timestamp` loop of the predict-mode `FTb`
handler: step a basic block, require the resolving instruction to be a
conditional branch (else broadcast `Panic` and die), consult the predictor
with outcome `hit`, and follow the predicted direction. The running
`timestamp` is not modified by this handler. -/
def ftbPredictLoop (insn_map : List (Nat × InsnInfo)) (br_mode : BrMode)
    (fuel timestamp : Nat) :
    Nat → Nat → BpDoubleSaturatingCounter →
    List Entry × Option (Nat × BpDoubleSaturatingCounter)
  | 0, pc, bp => ([], some (pc, bp))
  | k + 1, pc, bp =>
    let (es, r) := step_bb insn_map br_mode fuel pc
    match r with
    | none => (es, none)
    | some pc =>
      match insn_map.lookup pc with
      | none => (es, none)
      | some insn_to_resolve =>
        if ¬ BRANCH_OPCODES.contains insn_to_resolve.mnemonic then
          (es ++ [Entry.new_timed_event .Panic 0 pc 0], none)
        else
          match bp.predict pc true with
          | none => (es, none)
          | some (taken, bp) =>
            if taken then
              match compute_offset insn_to_resolve with
              | none => (es, none)
              | some off =>
                let new_pc := addSigned64 pc off
                let e := Entry.new_timed_event .TakenBranch timestamp pc new_pc
                let (es2, r2) :=
                  ftbPredictLoop insn_map br_mode fuel timestamp k new_pc bp
                (es ++ [e] ++ es2, r2)
            else
              let new_pc := w64 (pc + insn_to_resolve.len)
              let e := Entry.new_timed_event .NonTakenBranch timestamp pc new_pc
              let (es2, r2) :=
                ftbPredictLoop insn_map br_mode fuel timestamp k new_pc bp
              (es ++ [e] ++ es2, r2)

/-- The body of the `while let Ok(packet) = read_packet(..)` loop of
`trace_decoder` (`src/main.rs` lines 242-350): dispatch one packet against
the current state, returning the broadcast entries and the loop outcome. -/
def decodeStep (insn_map : List (Nat × InsnInfo)) (br_mode : BrMode)
    (fuel : Nat) (st : DecSt) (packet : Packet) : List Entry × Outcome :=
  if packet.f_header = .FSync then
    let (es, r) := step_bb_until insn_map (refund_addr packet.target_address) fuel st.pc
    match r with
    | none => (es, .abort)
    | some pc =>
      (es ++ [Entry.new_timed_event .End packet.timestamp pc 0], .stop)
  else if packet.f_header = .FTrap then
    let (es, r) := step_bb_until insn_map packet.trap_address fuel st.pc
    match r with
    | none => (es, .abort)
    | some pc =>
      let pc := refund_addr (packet.target_address ^^^ (pc >>> 1))
      let timestamp := w64 (st.timestamp + packet.timestamp)
      match Entry.new_timed_trap packet.trap_type timestamp packet.trap_address pc with
      | none => (es, .abort)
      | some e =>
        (es ++ [e], .cont { st with pc := pc, timestamp := timestamp })
  else if mode_is_predict br_mode ∧ packet.f_header = .FTb then
    let e0 := Entry.new_timed_event .BPHit packet.timestamp st.pc st.pc
    let (es, r) :=
      ftbPredictLoop insn_map br_mode fuel st.timestamp packet.timestamp st.pc st.bp
    match r with
    | none => (e0 :: es, .abort)
    | some (pc, bp) => (e0 :: es, .cont { st with pc := pc, bp := bp })
  else if mode_is_predict br_mode ∧ packet.f_header = .FNt then
    let timestamp := w64 (st.timestamp + packet.timestamp)
    let e0 := Entry.new_timed_event .BPMiss timestamp st.pc st.pc
    let (es, r) := step_bb insn_map br_mode fuel st.pc
    match r with
    | none => (e0 :: es, .abort)
    | some pc =>
      match insn_map.lookup pc with
      | none => (e0 :: es, .abort)
      | some insn_to_resolve =>
        if ¬ BRANCH_OPCODES.contains insn_to_resolve.mnemonic then
          (e0 :: es ++ [Entry.new_timed_event .Panic 0 pc 0], .abort)
        else
          match st.bp.predict pc false with
          | none => (e0 :: es, .abort)
          | some (taken, bp) =>
            if ¬ taken then
              match compute_offset insn_to_resolve with
              | none => (e0 :: es, .abort)
              | some off =>
                let new_pc := addSigned64 pc off
                (e0 :: es ++ [Entry.new_timed_event .TakenBranch timestamp pc new_pc],
                  .cont { pc := new_pc, timestamp := timestamp, bp := bp })
            else
              let new_pc := w64 (pc + insn_to_resolve.len)
              (e0 :: es ++ [Entry.new_timed_event .NonTakenBranch timestamp pc new_pc],
                .cont { pc := new_pc, timestamp := timestamp, bp := bp })
  else
    let (es, r) := step_bb insn_map br_mode fuel st.pc
    match r with
    | none => (es, .abort)
    | some pc =>
      match insn_map.lookup pc with
      | none => (es, .abort)
      | some insn_to_resolve =>
        let timestamp := w64 (st.timestamp + packet.timestamp)
        match packet.f_header with
        | .FTb =>
          if ¬ BRANCH_OPCODES.contains insn_to_resolve.mnemonic then
            (es ++ [Entry.new_timed_event .Panic 0 pc 0], .abort)
          else
            match compute_offset insn_to_resolve with
            | none => (es, .abort)
            | some off =>
              let new_pc := addSigned64 pc off
              (es ++ [Entry.new_timed_event .TakenBranch timestamp pc new_pc],
                .cont { st with pc := new_pc, timestamp := timestamp })
        | .FNt =>
          if ¬ BRANCH_OPCODES.contains insn_to_resolve.mnemonic then
            (es ++ [Entry.new_timed_event .Panic 0 pc 0], .abort)
          else
            let new_pc := w64 (pc + insn_to_resolve.len)
            (es ++ [Entry.new_timed_event .NonTakenBranch timestamp pc new_pc],
              .cont { st with pc := new_pc, timestamp := timestamp })
        | .FIj =>
          if ¬ IJ_OPCODES.contains insn_to_resolve.mnemonic then
            (es ++ [Entry.new_timed_event .Panic 0 pc 0], .abort)
          else
            match compute_offset insn_to_resolve with
            | none => (es, .abort)
            | some off =>
              let new_pc := addSigned64 pc off
              (es ++ [Entry.new_timed_event .InferrableJump timestamp pc new_pc],
                .cont { st with pc := new_pc, timestamp := timestamp })
        | .FUj =>
          if ¬ UJ_OPCODES.contains insn_to_resolve.mnemonic then
            (es ++ [Entry.new_timed_event .Panic 0 pc 0], .abort)
          else
            let new_pc := refund_addr (packet.target_address ^^^ (pc >>> 1))
            (es ++ [Entry.new_timed_event .UninferableJump timestamp pc new_pc],
              .cont { st with pc := new_pc, timestamp := timestamp })
        | _ =>
          (es ++ [Entry.new_timed_event .Panic 0 pc 0], .abort)

/-- The packet loop of `trace_decoder`: fold `decodeStep` over the packets
the reader yields, concatenating everything broadcast. -/
def decodeLoop (insn_map : List (Nat × InsnInfo)) (br_mode : BrMode)
    (fuel : Nat) : DecSt → List Packet → List Entry
  | _, [] => []
  | st, p :: ps =>
    match decodeStep insn_map br_mode fuel st p with
    | (es, .cont st') => es ++ decodeLoop insn_map br_mode fuel st' ps
    | (es, .stop) => es
    | (es, .abort) => es

/-- `trace_decoder` (`src/main.rs` lines 234-350) after image loading: given
the first (`FSync`) packet and the subsequent packets, set
`pc = refund_addr(first.target_address)`, `timestamp = first.timestamp`,
broadcast `Start`, then run the packet loop with a fresh predictor of
`bp_entries` counters. -/
def trace_decoder (insn_map : List (Nat × InsnInfo)) (br_mode : BrMode)
    (bp_entries fuel : Nat) (first : Packet) (packets : List Packet) :
    List Entry :=
  let pc := refund_addr first.target_address
  let st : DecSt := { pc := pc, timestamp := first.timestamp,
                      bp := .new bp_entries }
  Entry.new_timed_event .Start first.timestamp pc 0
    :: decodeLoop insn_map br_mode fuel st packets

/-! ## Startup architecture check (`src/main.rs` line 203,
`src/backend/stack_unwinder.rs` line 117) -/

/-- The `object::Architecture` values relevant to the startup check. -/
inductive Architecture | Riscv32 | Riscv64 | OtherArch
deriving DecidableEq, Repr

/-- The startup check of `trace_decoder` and `StackUnwinder::new`:
`assert!(elf.architecture() == object::Architecture::Riscv64)`.
`true` means the ELF is accepted; `false` is the assertion panic. -/
def archCheckOk (a : Architecture) : Bool := a == Architecture.Riscv64

/-! ## Derived predicates used by the statements -/

/-- "The name contains `jalr`": true exactly when `"jalr"` occurs as a
substring of the mnemonic (e.g. `jalr`, `c.jalr`). -/
def mnemonicContainsJalr (s : String) : Bool :=
  s.data.tails.any (fun l => "jalr".data.isPrefixOf l)

/-- Events whose `timestamp` field carries the producer's running absolute
time (as opposed to `End` carrying the final packet's raw timestamp field,
`BPHit` carrying the branch count, and `Panic` carrying zero). -/
def carriesRunningTime : Event → Bool
  | .Start | .TakenBranch | .NonTakenBranch | .InferrableJump
  | .UninferableJump | .TrapException | .TrapInterrupt | .TrapReturn
  | .BPMiss => true
  | _ => false

/-- The timestamps of the running-time entries of a broadcast stream, in
broadcast order. -/
def runningTimestamps (es : List Entry) : List Nat :=
  es.filterMap (fun e => if carriesRunningTime e.event then e.timestamp else none)

/-- Sum of the `timestamp` fields of a packet list (the total of the
time deltas the producer may accumulate). -/
def sumTimestamps (ps : List Packet) : Nat :=
  (ps.map (fun p => p.timestamp)).sum

/-- Number of branch events (`TakenBranch` or `NonTakenBranch`) in a
broadcast stream. -/
def countBranchEvents (es : List Entry) : Nat :=
  es.countP (fun e => e.event == Event.TakenBranch || e.event == Event.NonTakenBranch)

/-! ## Concrete fixtures for witnesses and counterexamples -/

/-- A known function symbol at `0x1000`. -/
def symFoo : SymbolInfo := { name := "foo", index := 0, line := 1, file := "foo.c" }

/-- A known function symbol at `0x2000`. -/
def symBar : SymbolInfo := { name := "bar", index := 1, line := 2, file := "bar.c" }

/-- A `jalr` (call-style indirect jump) instruction at `0x100`. -/
def jalrInsn : InsnInfo :=
  { address := 0x100, len := 4, bytes := [0xe7, 0x80, 0x07, 0x00],
    mnemonic := "jalr", op_str := "ra, 0(a5)" }

/-- A `ret` instruction at `0x100`. -/
def retInsn : InsnInfo :=
  { address := 0x100, len := 4, bytes := [0x67, 0x80, 0x00, 0x00],
    mnemonic := "ret", op_str := "" }

/-- An unwinder with one open frame (`foo`) whose source instruction at
`0x100` is a `jalr`. -/
def uwJalr : StackUnwinder :=
  { func_symbol_map := [(0x1000, symFoo), (0x2000, symBar)],
    idx_2_addr_range := [(0, (0x1000, 0x2000)), (1, (0x2000, 0x1000))],
    insn_map := [(0x100, jalrInsn)],
    frame_stack := [0] }

/-- The same image with an empty frame stack and a `ret` at `0x100`. -/
def uwEmpty : StackUnwinder :=
  { func_symbol_map := [(0x1000, symFoo), (0x2000, symBar)],
    idx_2_addr_range := [(0, (0x1000, 0x2000)), (1, (0x2000, 0x1000))],
    insn_map := [(0x100, retInsn)],
    frame_stack := [] }

/-- A `TrapReturn` entry from `0x100` to `0x200`. -/
def trapRetEntry : Entry :=
  { event := .TrapReturn, arc := (0x100, 0x200), insn := none, timestamp := none }

/-- An `UninferableJump` entry from the `jalr` at `0x100` to the known
function start `0x2000`. -/
def ujJalrEntry : Entry :=
  { event := .UninferableJump, arc := (0x100, 0x2000), insn := none,
    timestamp := none }

/-- An `addi` (no control flow) instruction at `0x1000`. -/
def addiInsn : InsnInfo :=
  { address := 0x1000, len := 4, bytes := [0x13, 0x05, 0x15, 0x00],
    mnemonic := "addi", op_str := "a0, a0, 1" }

/-- A `ret` instruction at `0x1000`. -/
def retInsn2 : InsnInfo :=
  { address := 0x1000, len := 4, bytes := [0x67, 0x80, 0x00, 0x00],
    mnemonic := "ret", op_str := "" }

/-- A conditional branch `beq` at `0x1000`. -/
def beqInsn : InsnInfo :=
  { address := 0x1000, len := 4, bytes := [0x63, 0x08, 0xb5, 0x00],
    mnemonic := "beq", op_str := "a0, a1, 0x10" }

/-- Image with a single `addi` at `0x1000`. -/
def imAddi : List (Nat × InsnInfo) := [(0x1000, addiInsn)]

/-- Image with a single `ret` at `0x1000`. -/
def imRet : List (Nat × InsnInfo) := [(0x1000, retInsn2)]

/-- Image with a single `beq` at `0x1000`. -/
def imBeq : List (Nat × InsnInfo) := [(0x1000, beqInsn)]

/-- A first (`FSync`) packet: `target = 0x800` (pc `0x1000`), `ts = 10`. -/
def firstSyncPkt : Packet :=
  { Packet.new with f_header := .FSync, target_address := 0x800, timestamp := 10 }

/-- A terminal `FSync` packet with raw timestamp field `0`. -/
def endSyncPkt : Packet :=
  { Packet.new with f_header := .FSync, target_address := 0x800, timestamp := 0 }

/-- An `FUj` packet whose XOR-compressed target field is `0`. -/
def ujZeroPkt : Packet :=
  { Packet.new with f_header := .FUj, target_address := 0, timestamp := 1 }

/-- An `FTb` packet with count field `1` (predict modes read the count from
the timestamp field). -/
def ftbOnePkt : Packet :=
  { Packet.new with f_header := .FTb, timestamp := 1 }

/-! ## Helper lemmas -/

/-- With the stack empty, `step_uj` returns `(false, 0, [], none)` and leaves
the unwinder unchanged, for either permitted event and any instruction. -/
theorem stepUj_empty (u : StackUnwinder) (e : Entry) (i : InsnInfo)
    (hev : e.event = Event.UninferableJump ∨ e.event = Event.TrapReturn)
    (hins : u.insn_map.lookup e.arc.1 = some i)
    (hempty : u.frame_stack = []) :
    step_uj u e =
      some ({ success := false, depth := 0, closed := [], opened := none }, u) := by
  rcases hev with h | h <;> simp [step_uj, h, hins, hempty]

/-- With a non-empty stack and a source instruction that is not `ret` or
`c.jr ra`, `step_uj` changes nothing and reports no frames. -/
theorem stepUj_not_ret (u : StackUnwinder) (e : Entry) (i : InsnInfo)
    (hev : e.event = Event.UninferableJump ∨ e.event = Event.TrapReturn)
    (hins : u.insn_map.lookup e.arc.1 = some i)
    (hne : u.frame_stack ≠ [])
    (hret : isRetInsn i = false) :
    step_uj u e =
      some ({ success := false, depth := u.frame_stack.length, closed := [],
              opened := none }, u) := by
  rcases hev with h | h <;>
    simp [step_uj, h, hins, hret, List.isEmpty_iff, hne]

/-- The result of `step_uj` never depends on which of the two permitted
events the entry carries. -/
theorem stepUj_event_irrel (u : StackUnwinder) (e : Entry)
    (hev : e.event = Event.TrapReturn) :
    step_uj u e = step_uj u { e with event := Event.UninferableJump } := by
  simp [step_uj, hev]

/-- A mnemonic containing `jalr` is neither `ret` nor `c.jr`, so such an
instruction never satisfies the return test of `step_uj`. -/
theorem containsJalr_not_isRet (i : InsnInfo)
    (h : mnemonicContainsJalr i.mnemonic = true) : isRetInsn i = false := by
  by_cases hm : i.mnemonic = "ret"
  · rw [hm] at h; exact absurd h (by decide)
  · by_cases hm2 : i.mnemonic = "c.jr"
    · rw [hm2] at h; exact absurd h (by decide)
    · simp [isRetInsn, hm, hm2]

/-- The byte loop of `read_varint` consumes exactly up to and including the
first byte with bit `0x80` set. -/
theorem varintBytes_spec (pre : List Nat) (b : Nat) (rest : List Nat)
    (hpre : ∀ x ∈ pre, x &&& 0x80 ≠ 0x80) (hb : b &&& 0x80 = 0x80) :
    varintBytes (pre ++ b :: rest) = some (pre ++ [b], rest) := by
  induction pre with
  | nil => simp [varintBytes, hb]
  | cons x xs ih =>
    have hx : x &&& 0x80 ≠ 0x80 := hpre x (by simp)
    have ih2 := ih (fun y hy => hpre y (by simp [hy]))
    simp [varintBytes, hx, ih2]

/-- Every entry broadcast by `step_bb` is a `None` (instruction) entry. -/
theorem step_bb_events (im : List (Nat × InsnInfo)) (br : BrMode) :
    ∀ fuel pc, ∀ e ∈ (step_bb im br fuel pc).1, e.event = Event.None := by
  intro fuel
  induction fuel with
  | zero => intro pc e he; simp [step_bb] at he
  | succ n ih =>
    intro pc e he
    rw [step_bb] at he
    split at he
    · simp at he
    · rename_i insn _
      split at he
      · split at he
        · simp at he; rw [he]; rfl
        · split at he
          rename_i es1 r1 hrec
          rcases List.mem_cons.mp he with h | h
          · rw [h]; rfl
          · exact ih _ e (by rw [hrec]; exact h)
      · split at he
        · simp at he; rw [he]; rfl
        · split at he
          · split at he
            · simp at he; rw [he]; rfl
            · split at he
              rename_i es1 r1 hrec
              rcases List.mem_cons.mp he with h | h
              · rw [h]; rfl
              · exact ih _ e (by rw [hrec]; exact h)
          · split at he
            rename_i es1 r1 hrec
            rcases List.mem_cons.mp he with h | h
            · rw [h]; rfl
            · exact ih _ e (by rw [hrec]; exact h)

/-- Every entry broadcast by `step_bb_until` is a `None` entry. -/
theorem step_bb_until_events (im : List (Nat × InsnInfo)) (tgt : Nat) :
    ∀ fuel pc, ∀ e ∈ (step_bb_until im tgt fuel pc).1, e.event = Event.None := by
  intro fuel
  induction fuel with
  | zero => intro pc e he; simp [step_bb_until] at he
  | succ n ih =>
    intro pc e he
    rw [step_bb_until] at he
    split at he
    · simp at he
    · rename_i insn _
      split at he
      · simp at he; rw [he]; rfl
      · split at he
        · simp at he; rw [he]; rfl
        · split at he
          rename_i es1 r1 hrec
          rcases List.mem_cons.mp he with h | h
          · rw [h]; rfl
          · exact ih _ e (by rw [hrec]; exact h)

theorem benign_append {es1 es2 : List Entry}
    (h1 : ∀ e ∈ es1, e.event = Event.None ∨ e.event = Event.TakenBranch ∨
      e.event = Event.NonTakenBranch)
    (h2 : ∀ e ∈ es2, e.event = Event.None ∨ e.event = Event.TakenBranch ∨
      e.event = Event.NonTakenBranch) :
    ∀ e ∈ es1 ++ es2, e.event = Event.None ∨ e.event = Event.TakenBranch ∨
      e.event = Event.NonTakenBranch := by
  intro e he
  rcases List.mem_append.mp he with h | h
  · exact h1 e h
  · exact h2 e h

theorem countBranch_none {es : List Entry}
    (h : ∀ e ∈ es, e.event = Event.None) : countBranchEvents es = 0 := by
  rw [countBranchEvents, List.countP_eq_zero]
  intro a ha
  simp [h a ha]

/-- A successful run of the predict-mode `FTb` loop with count `k` emits
exactly `k` branch events, and nothing besides `None` entries and branch
events. -/
theorem ftbLoop_spec (im : List (Nat × InsnInfo)) (br : BrMode) (fuel ts : Nat) :
    ∀ k pc bp es pcr bpr,
      ftbPredictLoop im br fuel ts k pc bp = (es, some (pcr, bpr)) →
      countBranchEvents es = k ∧
      ∀ e ∈ es, e.event = Event.None ∨ e.event = Event.TakenBranch ∨
        e.event = Event.NonTakenBranch := by
  intro k
  induction k with
  | zero =>
    intro pc bp es pcr bpr h
    rw [ftbPredictLoop] at h
    have : es = [] := by
      have := congrArg Prod.fst h
      simpa using this.symm
    rw [this]
    exact ⟨rfl, by simp⟩
  | succ n ih =>
    intro pc bp es pcr bpr h
    rw [ftbPredictLoop] at h
    rcases hbb : step_bb im br fuel pc with ⟨es1, r1⟩
    rw [hbb] at h
    dsimp only at h
    have hstepe : ∀ e ∈ es1, e.event = Event.None := by
      intro e he; exact step_bb_events im br fuel pc e (by rw [hbb]; exact he)
    cases r1 with
    | none => simp at h
    | some pcm =>
      dsimp only at h
      cases him : im.lookup pcm with
      | none => rw [him] at h; simp at h
      | some insn =>
        rw [him] at h
        dsimp only at h
        split at h
        · -- not a branch: Panic then abort
          simp at h
        · -- branch
          split at h
          · -- predict panicked
            rename_i heq; simp at h
          · rename_i taken tb hpred
            split at h
            · -- taken
              split at h
              · simp at h
              · rename_i off hoff
                rw [Prod.mk.injEq] at h
                obtain ⟨hes, hr2⟩ := h
                have hrec : ftbPredictLoop im br fuel ts n (addSigned64 pcm off) tb =
                    ((ftbPredictLoop im br fuel ts n (addSigned64 pcm off) tb).1,
                      some (pcr, bpr)) := by
                  rw [← hr2]
                obtain ⟨hcount, hben⟩ := ih _ _ _ _ _ hrec
                rw [← hes]
                constructor
                · rw [countBranchEvents, List.countP_append, List.countP_append]
                  have h1 := countBranch_none hstepe
                  rw [countBranchEvents] at h1 hcount
                  simp [h1, hcount, Entry.new_timed_event]
                  omega
                · refine benign_append (benign_append ?_ ?_) hben
                  · intro e he; exact Or.inl (hstepe e he)
                  · intro e he; simp at he; rw [he]; exact Or.inr (Or.inl rfl)
            · -- not taken
              rw [Prod.mk.injEq] at h
              obtain ⟨hes, hr2⟩ := h
              have hrec : ftbPredictLoop im br fuel ts n (w64 (pcm + insn.len)) tb =
                  ((ftbPredictLoop im br fuel ts n (w64 (pcm + insn.len)) tb).1,
                    some (pcr, bpr)) := by
                rw [← hr2]
              obtain ⟨hcount, hben⟩ := ih _ _ _ _ _ hrec
              rw [← hes]
              constructor
              · rw [countBranchEvents, List.countP_append, List.countP_append]
                have h1 := countBranch_none hstepe
                rw [countBranchEvents] at h1 hcount
                simp [h1, hcount, Entry.new_timed_event]
                omega
              · refine benign_append (benign_append ?_ ?_) hben
                · intro e he; exact Or.inl (hstepe e he)
                · intro e he; simp at he; rw [he]; exact Or.inr (Or.inr rfl)

theorem runningTimestamps_append (a b : List Entry) :
    runningTimestamps (a ++ b) = runningTimestamps a ++ runningTimestamps b :=
  List.filterMap_append a b _

theorem runningTimestamps_none {es : List Entry}
    (h : ∀ e ∈ es, e.event = Event.None) : runningTimestamps es = [] := by
  rw [runningTimestamps, List.filterMap_eq_nil_iff]
  intro e he
  simp [h e he, carriesRunningTime]

theorem runningTimestamps_cons_not (e : Entry) (es : List Entry)
    (h : carriesRunningTime e.event = false) :
    runningTimestamps (e :: es) = runningTimestamps es := by
  simp [runningTimestamps, h]

theorem runningTimestamps_cons_rt (e : Entry) (es : List Entry) (t0 : Nat)
    (h : carriesRunningTime e.event = true) (h2 : e.timestamp = some t0) :
    runningTimestamps (e :: es) = t0 :: runningTimestamps es := by
  simp [runningTimestamps, h, h2]

theorem from_trap_type_rt {tt : TrapType} {ev : Event}
    (h : Event.from_trap_type tt = some ev) : carriesRunningTime ev = true := by
  cases tt <;> simp [Event.from_trap_type] at h <;> simp [← h, carriesRunningTime]

theorem pairwise_le_of_all_eq {l : List Nat} {T : Nat} (h : ∀ t ∈ l, t = T) :
    List.Pairwise (· ≤ ·) l :=
  List.pairwise_of_forall_mem_list fun a ha b hb => by rw [h a ha, h b hb]

/-- All running-time entries emitted by the predict-mode `FTb` loop carry
the loop's (unchanged) running timestamp. -/
theorem ftbLoop_rt (im : List (Nat × InsnInfo)) (br : BrMode) (fuel ts : Nat) :
    ∀ k pc bp, ∀ t ∈ runningTimestamps (ftbPredictLoop im br fuel ts k pc bp).1,
      t = ts := by
  intro k
  induction k with
  | zero => intro pc bp t ht; simp [ftbPredictLoop, runningTimestamps] at ht
  | succ n ih =>
    intro pc bp t ht
    rw [ftbPredictLoop] at ht
    rcases hbb : step_bb im br fuel pc with ⟨es1, r1⟩
    rw [hbb] at ht
    dsimp only at ht
    have hes1 : runningTimestamps es1 = [] :=
      runningTimestamps_none (fun e he =>
        step_bb_events im br fuel pc e (by rw [hbb]; exact he))
    cases r1 with
    | none => rw [hes1] at ht; simp at ht
    | some pcm =>
      dsimp only at ht
      cases him : im.lookup pcm with
      | none => rw [him] at ht; rw [hes1] at ht; simp at ht
      | some insn =>
        rw [him] at ht
        dsimp only at ht
        split at ht
        · -- Panic
          rw [runningTimestamps_append, hes1] at ht
          simp [runningTimestamps, Entry.new_timed_event, carriesRunningTime] at ht
        · split at ht
          · -- predict panicked
            rw [hes1] at ht; simp at ht
          · rename_i taken tb hpred
            split at ht
            · -- taken
              split at ht
              · rw [hes1] at ht; simp at ht
              · rename_i off hoff
                rw [runningTimestamps_append, runningTimestamps_append, hes1] at ht
                simp only [List.nil_append, List.mem_append] at ht
                rcases ht with ht | ht
                · simp [runningTimestamps, Entry.new_timed_event,
                    carriesRunningTime] at ht
                  exact ht
                · exact ih _ _ t ht
            · -- not taken
              rw [runningTimestamps_append, runningTimestamps_append, hes1] at ht
              simp only [List.nil_append, List.mem_append] at ht
              rcases ht with ht | ht
              · simp [runningTimestamps, Entry.new_timed_event,
                  carriesRunningTime] at ht
                exact ht
              · exact ih _ _ t ht

/-- One dispatch step: every running-time entry it broadcasts carries a
single timestamp `T` between the incoming running time and the incoming
running time plus the packet's delta, and a continuing state's timestamp
stays within the same bounds. -/
theorem decodeStep_ts (im : List (Nat × InsnInfo)) (br : BrMode) (fuel : Nat)
    (st : DecSt) (p : Packet) (es : List Entry) (oc : Outcome)
    (hov : st.timestamp + p.timestamp < 2 ^ 64)
    (h : decodeStep im br fuel st p = (es, oc)) :
    ∃ T, st.timestamp ≤ T ∧ T ≤ st.timestamp + p.timestamp ∧
      (∀ t ∈ runningTimestamps es, t = T) ∧
      (∀ st2, oc = Outcome.cont st2 →
        T ≤ st2.timestamp ∧ st2.timestamp ≤ st.timestamp + p.timestamp) := by
  have hw : w64 (st.timestamp + p.timestamp) = st.timestamp + p.timestamp :=
    Nat.mod_eq_of_lt hov
  rw [decodeStep] at h
  split at h
  · -- FSync
    rcases hbb : step_bb_until im (refund_addr p.target_address) fuel st.pc
      with ⟨es1, r1⟩
    rw [hbb] at h
    dsimp only at h
    have hes1 : runningTimestamps es1 = [] :=
      runningTimestamps_none (fun e he =>
        step_bb_until_events im _ fuel st.pc e (by rw [hbb]; exact he))
    cases r1 with
    | none =>
      rw [Prod.mk.injEq] at h
      obtain ⟨hes, hoc⟩ := h
      refine ⟨st.timestamp, le_refl _, Nat.le_add_right _ _, ?_, ?_⟩
      · rw [← hes, hes1]; intro t ht; simp at ht
      · intro st2 h2; rw [← hoc] at h2; simp at h2
    | some pcm =>
      dsimp only at h
      rw [Prod.mk.injEq] at h
      obtain ⟨hes, hoc⟩ := h
      refine ⟨st.timestamp, le_refl _, Nat.le_add_right _ _, ?_, ?_⟩
      · rw [← hes, runningTimestamps_append, hes1]
        intro t ht
        simp [runningTimestamps, Entry.new_timed_event, carriesRunningTime] at ht
      · intro st2 h2; rw [← hoc] at h2; simp at h2
  · split at h
    · -- FTrap
      rcases hbb : step_bb_until im p.trap_address fuel st.pc with ⟨es1, r1⟩
      rw [hbb] at h
      dsimp only at h
      have hes1 : runningTimestamps es1 = [] :=
        runningTimestamps_none (fun e he =>
          step_bb_until_events im _ fuel st.pc e (by rw [hbb]; exact he))
      cases r1 with
      | none =>
        rw [Prod.mk.injEq] at h
        obtain ⟨hes, hoc⟩ := h
        refine ⟨st.timestamp, le_refl _, Nat.le_add_right _ _, ?_, ?_⟩
        · rw [← hes, hes1]; intro t ht; simp at ht
        · intro st2 h2; rw [← hoc] at h2; simp at h2
      | some pcm =>
        dsimp only at h
        cases hft : Event.from_trap_type p.trap_type with
        | none =>
          rw [Entry.new_timed_trap, hft] at h
          dsimp only at h
          rw [Prod.mk.injEq] at h
          obtain ⟨hes, hoc⟩ := h
          refine ⟨st.timestamp, le_refl _, Nat.le_add_right _ _, ?_, ?_⟩
          · rw [← hes, hes1]; intro t ht; simp at ht
          · intro st2 h2; rw [← hoc] at h2; simp at h2
        | some ev =>
          rw [Entry.new_timed_trap, hft] at h
          dsimp only at h
          rw [Prod.mk.injEq] at h
          obtain ⟨hes, hoc⟩ := h
          refine ⟨st.timestamp + p.timestamp, Nat.le_add_right _ _, le_refl _, ?_, ?_⟩
          · rw [← hes, runningTimestamps_append, hes1]
            intro t ht
            simp only [List.nil_append] at ht
            simp [runningTimestamps, from_trap_type_rt hft, hw] at ht
            exact ht
          · intro st2 h2
            rw [← hoc] at h2
            cases h2
            simp [hw]
    · split at h
      · -- FTb predict
        rcases hloop : ftbPredictLoop im br fuel st.timestamp p.timestamp st.pc st.bp
          with ⟨es1, r1⟩
        rw [hloop] at h
        dsimp only at h
        have hes1 : ∀ t ∈ runningTimestamps es1, t = st.timestamp := by
          intro t ht
          exact ftbLoop_rt im br fuel st.timestamp p.timestamp st.pc st.bp t
            (by rw [hloop]; exact ht)
        have hbph : carriesRunningTime
            (Entry.new_timed_event Event.BPHit p.timestamp st.pc st.pc).event = false := rfl
        cases r1 with
        | none =>
          rw [Prod.mk.injEq] at h
          obtain ⟨hes, hoc⟩ := h
          refine ⟨st.timestamp, le_refl _, Nat.le_add_right _ _, ?_, ?_⟩
          · rw [← hes, runningTimestamps_cons_not _ _ hbph]
            exact hes1
          · intro st2 h2; rw [← hoc] at h2; simp at h2
        | some pr =>
          obtain ⟨pcr, bpr⟩ := pr
          dsimp only at h
          rw [Prod.mk.injEq] at h
          obtain ⟨hes, hoc⟩ := h
          refine ⟨st.timestamp, le_refl _, Nat.le_add_right _ _, ?_, ?_⟩
          · rw [← hes, runningTimestamps_cons_not _ _ hbph]
            exact hes1
          · intro st2 h2
            rw [← hoc] at h2
            cases h2
            exact ⟨le_refl _, Nat.le_add_right _ _⟩
      · split at h
        · -- FNt predict
          rcases hbb : step_bb im br fuel st.pc with ⟨es1, r1⟩
          rw [hbb] at h
          dsimp only at h
          have hes1 : runningTimestamps es1 = [] :=
            runningTimestamps_none (fun e he =>
              step_bb_events im br fuel st.pc e (by rw [hbb]; exact he))
          have hbpm : carriesRunningTime
              (Entry.new_timed_event Event.BPMiss
                (w64 (st.timestamp + p.timestamp)) st.pc st.pc).event = true := rfl
          have hbpt : (Entry.new_timed_event Event.BPMiss
              (w64 (st.timestamp + p.timestamp)) st.pc st.pc).timestamp =
              some (st.timestamp + p.timestamp) := by
            simp [Entry.new_timed_event, hw]
          cases r1 with
          | none =>
            rw [Prod.mk.injEq] at h
            obtain ⟨hes, hoc⟩ := h
            refine ⟨st.timestamp + p.timestamp, Nat.le_add_right _ _, le_refl _, ?_, ?_⟩
            · rw [← hes, runningTimestamps_cons_rt _ _ _ hbpm hbpt, hes1]
              intro t ht; simp at ht; exact ht
            · intro st2 h2; rw [← hoc] at h2; simp at h2
          | some pcm =>
            dsimp only at h
            cases him : im.lookup pcm with
            | none =>
              rw [him] at h
              dsimp only at h
              rw [Prod.mk.injEq] at h
              obtain ⟨hes, hoc⟩ := h
              refine ⟨st.timestamp + p.timestamp, Nat.le_add_right _ _, le_refl _, ?_, ?_⟩
              · rw [← hes, runningTimestamps_cons_rt _ _ _ hbpm hbpt, hes1]
                intro t ht; simp at ht; exact ht
              · intro st2 h2; rw [← hoc] at h2; simp at h2
            | some insn =>
              rw [him] at h
              dsimp only at h
              split at h
              · -- Panic
                rw [Prod.mk.injEq] at h
                obtain ⟨hes, hoc⟩ := h
                refine ⟨st.timestamp + p.timestamp, Nat.le_add_right _ _, le_refl _, ?_, ?_⟩
                · rw [← hes, runningTimestamps_append,
                    runningTimestamps_cons_rt _ _ _ hbpm hbpt, hes1]
                  intro t ht
                  simp [runningTimestamps, Entry.new_timed_event,
                    carriesRunningTime] at ht
                  exact ht
                · intro st2 h2; rw [← hoc] at h2; simp at h2
              · split at h
                · -- predict panicked
                  rw [Prod.mk.injEq] at h
                  obtain ⟨hes, hoc⟩ := h
                  refine ⟨st.timestamp + p.timestamp, Nat.le_add_right _ _, le_refl _, ?_, ?_⟩
                  · rw [← hes, runningTimestamps_cons_rt _ _ _ hbpm hbpt, hes1]
                    intro t ht; simp at ht; exact ht
                  · intro st2 h2; rw [← hoc] at h2; simp at h2
                · rename_i taken tb hpred
                  split at h
                  · -- mispredicted not-taken: actual taken branch
                    split at h
                    · -- offset panic
                      rw [Prod.mk.injEq] at h
                      obtain ⟨hes, hoc⟩ := h
                      refine ⟨st.timestamp + p.timestamp, Nat.le_add_right _ _, le_refl _, ?_, ?_⟩
                      · rw [← hes, runningTimestamps_cons_rt _ _ _ hbpm hbpt, hes1]
                        intro t ht; simp at ht; exact ht
                      · intro st2 h2; rw [← hoc] at h2; simp at h2
                    · rename_i off hoff
                      rw [Prod.mk.injEq] at h
                      obtain ⟨hes, hoc⟩ := h
                      refine ⟨st.timestamp + p.timestamp, Nat.le_add_right _ _, le_refl _, ?_, ?_⟩
                      · rw [← hes, runningTimestamps_append,
                          runningTimestamps_cons_rt _ _ _ hbpm hbpt, hes1]
                        intro t ht
                        simp [runningTimestamps, Entry.new_timed_event,
                          carriesRunningTime, hw] at ht
                        exact ht
                      · intro st2 h2
                        rw [← hoc] at h2
                        cases h2
                        simp [hw]
                  · -- predicted correctly reversed: non-taken
                    rw [Prod.mk.injEq] at h
                    obtain ⟨hes, hoc⟩ := h
                    refine ⟨st.timestamp + p.timestamp, Nat.le_add_right _ _, le_refl _, ?_, ?_⟩
                    · rw [← hes, runningTimestamps_append,
                        runningTimestamps_cons_rt _ _ _ hbpm hbpt, hes1]
                      intro t ht
                      simp [runningTimestamps, Entry.new_timed_event,
                        carriesRunningTime, hw] at ht
                      exact ht
                    · intro st2 h2
                      rw [← hoc] at h2
                      cases h2
                      simp [hw]
        · -- else: FTb/FNt non-predict, FIj, FUj, reserved
          rcases hbb : step_bb im br fuel st.pc with ⟨es1, r1⟩
          rw [hbb] at h
          dsimp only at h
          have hes1 : runningTimestamps es1 = [] :=
            runningTimestamps_none (fun e he =>
              step_bb_events im br fuel st.pc e (by rw [hbb]; exact he))
          cases r1 with
          | none =>
            rw [Prod.mk.injEq] at h
            obtain ⟨hes, hoc⟩ := h
            refine ⟨st.timestamp, le_refl _, Nat.le_add_right _ _, ?_, ?_⟩
            · rw [← hes, hes1]; intro t ht; simp at ht
            · intro st2 h2; rw [← hoc] at h2; simp at h2
          | some pcm =>
            dsimp only at h
            cases him : im.lookup pcm with
            | none =>
              rw [him] at h
              dsimp only at h
              rw [Prod.mk.injEq] at h
              obtain ⟨hes, hoc⟩ := h
              refine ⟨st.timestamp, le_refl _, Nat.le_add_right _ _, ?_, ?_⟩
              · rw [← hes, hes1]; intro t ht; simp at ht
              · intro st2 h2; rw [← hoc] at h2; simp at h2
            | some insn =>
              rw [him] at h
              dsimp only at h
              split at h
              · -- FTb non-predict
                split at h
                · -- Panic: not a branch
                  rw [Prod.mk.injEq] at h
                  obtain ⟨hes, hoc⟩ := h
                  refine ⟨st.timestamp, le_refl _, Nat.le_add_right _ _, ?_, ?_⟩
                  · rw [← hes, runningTimestamps_append, hes1]
                    intro t ht
                    simp [runningTimestamps, Entry.new_timed_event,
                      carriesRunningTime] at ht
                  · intro st2 h2; rw [← hoc] at h2; simp at h2
                · split at h
                  · -- offset panic
                    rw [Prod.mk.injEq] at h
                    obtain ⟨hes, hoc⟩ := h
                    refine ⟨st.timestamp, le_refl _, Nat.le_add_right _ _, ?_, ?_⟩
                    · rw [← hes, hes1]; intro t ht; simp at ht
                    · intro st2 h2; rw [← hoc] at h2; simp at h2
                  · -- TakenBranch
                    rw [Prod.mk.injEq] at h
                    obtain ⟨hes, hoc⟩ := h
                    refine ⟨st.timestamp + p.timestamp, Nat.le_add_right _ _,
                      le_refl _, ?_, ?_⟩
                    · rw [← hes, runningTimestamps_append, hes1]
                      intro t ht
                      simp [runningTimestamps, Entry.new_timed_event,
                        carriesRunningTime, hw] at ht
                      exact ht
                    · intro st2 h2
                      rw [← hoc] at h2
                      cases h2
                      simp [hw]
              · -- FNt non-predict
                split at h
                · -- Panic
                  rw [Prod.mk.injEq] at h
                  obtain ⟨hes, hoc⟩ := h
                  refine ⟨st.timestamp, le_refl _, Nat.le_add_right _ _, ?_, ?_⟩
                  · rw [← hes, runningTimestamps_append, hes1]
                    intro t ht
                    simp [runningTimestamps, Entry.new_timed_event,
                      carriesRunningTime] at ht
                  · intro st2 h2; rw [← hoc] at h2; simp at h2
                · -- NonTakenBranch
                  rw [Prod.mk.injEq] at h
                  obtain ⟨hes, hoc⟩ := h
                  refine ⟨st.timestamp + p.timestamp, Nat.le_add_right _ _,
                    le_refl _, ?_, ?_⟩
                  · rw [← hes, runningTimestamps_append, hes1]
                    intro t ht
                    simp [runningTimestamps, Entry.new_timed_event,
                      carriesRunningTime, hw] at ht
                    exact ht
                  · intro st2 h2
                    rw [← hoc] at h2
                    cases h2
                    simp [hw]
              · -- FIj
                split at h
                · -- Panic
                  rw [Prod.mk.injEq] at h
                  obtain ⟨hes, hoc⟩ := h
                  refine ⟨st.timestamp, le_refl _, Nat.le_add_right _ _, ?_, ?_⟩
                  · rw [← hes, runningTimestamps_append, hes1]
                    intro t ht
                    simp [runningTimestamps, Entry.new_timed_event,
                      carriesRunningTime] at ht
                  · intro st2 h2; rw [← hoc] at h2; simp at h2
                · split at h
                  · -- offset panic
                    rw [Prod.mk.injEq] at h
                    obtain ⟨hes, hoc⟩ := h
                    refine ⟨st.timestamp, le_refl _, Nat.le_add_right _ _, ?_, ?_⟩
                    · rw [← hes, hes1]; intro t ht; simp at ht
                    · intro st2 h2; rw [← hoc] at h2; simp at h2
                  · -- InferrableJump
                    rw [Prod.mk.injEq] at h
                    obtain ⟨hes, hoc⟩ := h
                    refine ⟨st.timestamp + p.timestamp, Nat.le_add_right _ _,
                      le_refl _, ?_, ?_⟩
                    · rw [← hes, runningTimestamps_append, hes1]
                      intro t ht
                      simp [runningTimestamps, Entry.new_timed_event,
                        carriesRunningTime, hw] at ht
                      exact ht
                    · intro st2 h2
                      rw [← hoc] at h2
                      cases h2
                      simp [hw]
              · -- FUj
                split at h
                · -- Panic
                  rw [Prod.mk.injEq] at h
                  obtain ⟨hes, hoc⟩ := h
                  refine ⟨st.timestamp, le_refl _, Nat.le_add_right _ _, ?_, ?_⟩
                  · rw [← hes, runningTimestamps_append, hes1]
                    intro t ht
                    simp [runningTimestamps, Entry.new_timed_event,
                      carriesRunningTime] at ht
                  · intro st2 h2; rw [← hoc] at h2; simp at h2
                · -- UninferableJump
                  rw [Prod.mk.injEq] at h
                  obtain ⟨hes, hoc⟩ := h
                  refine ⟨st.timestamp + p.timestamp, Nat.le_add_right _ _,
                    le_refl _, ?_, ?_⟩
                  · rw [← hes, runningTimestamps_append, hes1]
                    intro t ht
                    simp [runningTimestamps, Entry.new_timed_event,
                      carriesRunningTime, hw] at ht
                    exact ht
                  · intro st2 h2
                    rw [← hoc] at h2
                    cases h2
                    simp [hw]
              · -- reserved headers: Panic
                rw [Prod.mk.injEq] at h
                obtain ⟨hes, hoc⟩ := h
                refine ⟨st.timestamp, le_refl _, Nat.le_add_right _ _, ?_, ?_⟩
                · rw [← hes, runningTimestamps_append, hes1]
                  intro t ht
                  simp [runningTimestamps, Entry.new_timed_event,
                    carriesRunningTime] at ht
                · intro st2 h2; rw [← hoc] at h2; simp at h2

/-- Over a packet list whose deltas cannot overflow, the running-time
timestamps of the packet loop are non-decreasing and bounded below by the
incoming running time. -/
theorem decodeLoop_ts (im : List (Nat × InsnInfo)) (br : BrMode) (fuel : Nat) :
    ∀ ps st, st.timestamp + sumTimestamps ps < 2 ^ 64 →
      List.Pairwise (· ≤ ·) (runningTimestamps (decodeLoop im br fuel st ps)) ∧
      ∀ t ∈ runningTimestamps (decodeLoop im br fuel st ps), st.timestamp ≤ t := by
  intro ps
  induction ps with
  | nil => intro st hov; simp [decodeLoop, runningTimestamps]
  | cons p ps ih =>
    intro st hov
    rw [sumTimestamps] at hov
    simp only [List.map_cons, List.sum_cons] at hov
    rcases hstep : decodeStep im br fuel st p with ⟨es, oc⟩
    have hov1 : st.timestamp + p.timestamp < 2 ^ 64 := by
      have : sumTimestamps ps ≥ 0 := Nat.zero_le _
      omega
    obtain ⟨T, hT1, hT2, hTall, hTcont⟩ :=
      decodeStep_ts im br fuel st p es oc hov1 hstep
    rw [decodeLoop, hstep]
    cases oc with
    | cont st2 =>
      obtain ⟨hc1, hc2⟩ := hTcont st2 rfl
      have hov2 : st2.timestamp + sumTimestamps ps < 2 ^ 64 := by
        rw [sumTimestamps]; omega
      obtain ⟨hp, hmin⟩ := ih st2 hov2
      dsimp only
      rw [runningTimestamps_append]
      constructor
      · rw [List.pairwise_append]
        refine ⟨pairwise_le_of_all_eq hTall, hp, ?_⟩
        intro a ha b hb
        rw [hTall a ha]
        exact le_trans hc1 (hmin b hb)
      · intro t ht
        rcases List.mem_append.mp ht with ht | ht
        · rw [hTall t ht]; exact hT1
        · exact le_trans (le_trans hT1 hc1) (hmin t ht)
    | stop =>
      dsimp only
      refine ⟨pairwise_le_of_all_eq hTall, ?_⟩
      intro t ht
      rw [hTall t ht]
      exact hT1
    | abort =>
      dsimp only
      refine ⟨pairwise_le_of_all_eq hTall, ?_⟩
      intro t ht
      rw [hTall t ht]
      exact hT1

/-! ## Claim theorems -/

/-- C1, counterexample: a `TrapReturn` entry arriving with a non-empty frame
stack whose source instruction is a `jalr` pops no frame at all — `step_uj`
returns `(false, 1, [], none)` with the stack untouched, refuting "pop
exactly one frame ... regardless of which instruction sits at
`entry.arc.from`". -/
theorem c1_counterexample :
    uwJalr.frame_stack ≠ [] ∧
    ¬ (∃ r, step_uj uwJalr trapRetEntry = some r ∧ r.1.closed.length = 1) := by
  refine ⟨by decide, ?_⟩
  rintro ⟨r, hr, hl⟩
  have h0 : step_uj uwJalr trapRetEntry =
      some ({ success := false, depth := 1, closed := [], opened := none }, uwJalr) := by
    decide
  rw [h0] at hr
  have := (Option.some.inj hr).symm
  rw [this] at hl
  simp at hl

/-- C1, amended: `step_uj` gives `TrapReturn` no special treatment — it
behaves exactly as for `UninferableJump` with the same arc: with an empty
stack it returns `(false, 0, [], none)`; with a non-empty stack it pops
frames only when the instruction at `entry.arc.0` is `ret` or `c.jr ra`,
and otherwise returns `(false, depth, [], none)` leaving the stack
unchanged. -/
theorem c1_trap_return_amended (u : StackUnwinder) (e : Entry) (i : InsnInfo)
    (hev : e.event = Event.TrapReturn)
    (hins : u.insn_map.lookup e.arc.1 = some i) :
    (step_uj u e = step_uj u { e with event := Event.UninferableJump }) ∧
    (u.frame_stack = [] →
      step_uj u e =
        some ({ success := false, depth := 0, closed := [], opened := none }, u)) ∧
    (u.frame_stack ≠ [] → isRetInsn i = false →
      step_uj u e =
        some ({ success := false, depth := u.frame_stack.length, closed := [],
                opened := none }, u)) :=
  ⟨stepUj_event_irrel u e hev,
   fun h => stepUj_empty u e i (Or.inr hev) hins h,
   fun h hr => stepUj_not_ret u e i (Or.inr hev) hins h hr⟩

/-- C1, witness: the amended theorem applied to the concrete unwinder with
one open frame and a `jalr` at the source address. -/
theorem c1_trap_return_amended_witness :
    step_uj uwJalr trapRetEntry =
      some ({ success := false, depth := 1, closed := [], opened := none }, uwJalr) :=
  (c1_trap_return_amended uwJalr trapRetEntry jalrInsn rfl (by decide)).2.2 (by decide) (by decide)

/-- C2, counterexample: the byte `0x1A` is a full packet (`c_header = CNa`)
whose `f_header` field decodes to `FVal`, yet `read_packet` returns `Ok`
with a default packet instead of failing. -/
theorem c2_counterexample :
    FHeader.fromU8 ((0x1A &&& 0x1C) >>> 2) = some FHeader.FVal /\
    read_packet [0x1A] = some ({ Packet.new with is_compressed := false }, []) :=
  ⟨rfl, rfl⟩

/-- C2, amended: on a full packet whose `f_header` decodes to `FVal` or
`FRes`, `read_packet` does not fail: it prints a message and returns `Ok`
with the packet still holding its defaults (`f_header = FRes`); the abort
only happens later in the engine's dispatch, as a `Panic`. -/
theorem c2_reserved_header_amended (b : Nat) (rest : List Nat)
    (hc : b &&& 0x03 = 0x02)
    (hf : FHeader.fromU8 ((b &&& 0x1C) >>> 2) = some FHeader.FVal ∨
          FHeader.fromU8 ((b &&& 0x1C) >>> 2) = some FHeader.FRes) :
    read_packet (b :: rest) = some ({ Packet.new with is_compressed := false }, rest) := by
  simp only [read_packet, read_u8]
  rw [hc]
  rcases hf with h | h <;> rw [h] <;> rfl

/-- C2, witness: the amended theorem applied to the reserved byte `0x1E`
(`FRes`) followed by one more byte. -/
theorem c2_reserved_header_witness :
    read_packet [0x1E, 0x99] =
      some ({ Packet.new with is_compressed := false }, [0x99]) :=
  c2_reserved_header_amended 0x1E [0x99] (by decide) (Or.inr (by decide))

/-- C3, counterexample: an RV32 ELF is rejected — the startup assertion
`elf.architecture() == Architecture::Riscv64` fails on `Riscv32`, refuting
"accepts any RISC-V ELF whose architecture is RV32 or RV64". -/
theorem c3_counterexample : ¬ (archCheckOk Architecture.Riscv32 = true) := by decide

/-- C3, amended: the decoder accepts exactly RV64 ELFs; the startup
assertion panics on every other architecture, RV32 included (and the
failure is an assertion panic, not an `UnsupportedArchitecture` error,
which does not exist in the code). -/
theorem c3_arch_check_amended (a : Architecture) : archCheckOk a = true ↔ a = Architecture.Riscv64 := by
  cases a <;> simp [archCheckOk]

/-- C4: for an `FUj` packet handled in a non-predict mode, with `p` the PC
reached by the basic-block walk, the PC broadcast as the `UninferableJump`
target — and installed as the new PC — equals
`(packet.target_address XOR (p >> 1)) << 1`. -/
theorem c4_fuj_xor_refund (im : List (Nat × InsnInfo)) (br : BrMode) (fuel : Nat)
    (st : DecSt) (p : Packet) (es : List Entry) (pcw : Nat) (i : InsnInfo)
    (hmode : mode_is_predict br = false)
    (hf : p.f_header = FHeader.FUj)
    (hbb : step_bb im br fuel st.pc = (es, some pcw))
    (hi : im.lookup pcw = some i)
    (huj : UJ_OPCODES.contains i.mnemonic = true) :
    decodeStep im br fuel st p =
      (es ++ [Entry.new_timed_event Event.UninferableJump
               (w64 (st.timestamp + p.timestamp)) pcw
               (w64 ((p.target_address ^^^ (pcw >>> 1)) <<< 1))],
       Outcome.cont { st with
         pc := w64 ((p.target_address ^^^ (pcw >>> 1)) <<< 1),
         timestamp := w64 (st.timestamp + p.timestamp) }) := by
  have hm : i.mnemonic ∈ UJ_OPCODES := by simpa using huj
  unfold decodeStep
  simp [hf, hmode, hbb, hi, hm, refund_addr]

/-- C4, witness: with a `ret` at `0x1000` and `target_address = 0`, the
new PC is `(0 XOR (0x1000 >> 1)) << 1 = 0x1000`. -/
theorem c4_fuj_xor_refund_witness :
    decodeStep imRet BrMode.BrTarget 8
        { pc := 0x1000, timestamp := 10, bp := .new 4 } ujZeroPkt =
      ([Entry.new_insn retInsn2,
        Entry.new_timed_event Event.UninferableJump 11 0x1000 0x1000],
       Outcome.cont { pc := 0x1000, timestamp := 11, bp := .new 4 }) := by
  have h := c4_fuj_xor_refund imRet BrMode.BrTarget 8
    { pc := 0x1000, timestamp := 10, bp := .new 4 } ujZeroPkt
    [Entry.new_insn retInsn2] 0x1000 retInsn2 (by decide) rfl (by decide) (by decide) (by decide)
  exact h.trans (by decide)

/-- C5, counterexample: an `UninferableJump` entry from a `jalr` whose
target `0x2000` is a known function start does NOT get pushed — `step_uj`
returns `(false, 1, [], none)` and the stack is unchanged, refuting
"push the target's symbol if known". -/
theorem c5_counterexample :
    mnemonicContainsJalr jalrInsn.mnemonic = true ∧
    (uwJalr.func_symbol_map.lookup ujJalrEntry.arc.2).isSome = true ∧
    ¬ (∃ r, step_uj uwJalr ujJalrEntry = some r ∧
        r.2.frame_stack.length = uwJalr.frame_stack.length + 1) := by
  refine ⟨by decide, by decide, ?_⟩
  rintro ⟨r, hr, hl⟩
  have h0 : step_uj uwJalr ujJalrEntry =
      some ({ success := false, depth := 1, closed := [], opened := none }, uwJalr) := by
    decide
  rw [h0] at hr
  have := (Option.some.inj hr).symm
  rw [this] at hl
  simp at hl

/-- C5, amended: `step_uj` has no call-style `jalr` case at all: an
`UninferableJump` entry whose source instruction's name contains `jalr`
is treated as "not a return" — with a non-empty stack it returns
`(false, depth, [], none)` and pushes nothing, whether or not the target
is a known function start. -/
theorem c5_jalr_no_push_amended (u : StackUnwinder) (e : Entry) (i : InsnInfo)
    (hev : e.event = Event.UninferableJump)
    (hins : u.insn_map.lookup e.arc.1 = some i)
    (hjalr : mnemonicContainsJalr i.mnemonic = true)
    (hne : u.frame_stack ≠ []) :
    step_uj u e =
      some ({ success := false, depth := u.frame_stack.length, closed := [],
              opened := none }, u) :=
  stepUj_not_ret u e i (Or.inl hev) hins hne (containsJalr_not_isRet i hjalr)

/-- C5, witness: the amended theorem applied to the concrete unwinder with
a `jalr` at `0x100` and known target `0x2000`. -/
theorem c5_jalr_no_push_amended_witness :
    step_uj uwJalr ujJalrEntry =
      some ({ success := false, depth := 1, closed := [], opened := none }, uwJalr) :=
  c5_jalr_no_push_amended uwJalr ujJalrEntry jalrInsn rfl (by decide) (by decide) (by decide)

/-- C6: `read_varint` consumes bytes up to and including the first byte
with bit `0x80` set and returns the fold, from the last consumed byte back
to the first, of `acc := (acc << 7) | (byte AND 0x7f)`. -/
theorem c6_read_varint_fold (pre : List Nat) (b : Nat) (rest : List Nat)
    (hpre : ∀ x ∈ pre, x &&& 0x80 ≠ 0x80) (hb : b &&& 0x80 = 0x80) :
    read_varint (pre ++ b :: rest) =
      some (((pre ++ [b]).reverse).foldl
        (fun acc x => w64 (acc <<< 7) ||| (x &&& 0x7f)) 0, rest) := by
  rw [read_varint, varintBytes_spec pre b rest hpre hb]
  rfl

/-- C6, witness: the byte sequence `[0x01, 0x82]` decodes to `0x101`. -/
theorem c6_read_varint_fold_witness : read_varint [0x01, 0x82] = some (0x101, []) :=
  (c6_read_varint_fold [0x01] 0x82 [] (by decide) (by decide)).trans (by decide)

/-- C7: in a predict mode, an `FTb` packet with timestamp field `k`
broadcasts one `BPHit` entry carrying count `k` followed by entries among
which exactly `k` are branch events (`TakenBranch` or `NonTakenBranch`)
and all the others are `None` instruction entries — no other event
intervenes before the handler finishes. -/
theorem c7_ftb_predict_branch_count (im : List (Nat × InsnInfo)) (br : BrMode) (fuel : Nat)
    (st : DecSt) (p : Packet) (es : List Entry) (st2 : DecSt)
    (hmode : mode_is_predict br = true)
    (hf : p.f_header = FHeader.FTb)
    (hstep : decodeStep im br fuel st p = (es, Outcome.cont st2)) :
    ∃ rest, es = Entry.new_timed_event Event.BPHit p.timestamp st.pc st.pc :: rest ∧
      countBranchEvents rest = p.timestamp ∧
      ∀ e ∈ rest, e.event = Event.None ∨ e.event = Event.TakenBranch ∨
        e.event = Event.NonTakenBranch := by
  rw [decodeStep] at hstep
  rw [if_neg (by simp [hf])] at hstep
  rw [if_neg (by simp [hf])] at hstep
  rw [if_pos (by simp [hf, hmode])] at hstep
  dsimp only at hstep
  rcases hloop : ftbPredictLoop im br fuel st.timestamp p.timestamp st.pc st.bp
    with ⟨es1, r⟩
  rw [hloop] at hstep
  dsimp only at hstep
  cases r with
  | none => simp at hstep
  | some pr =>
    obtain ⟨pcr, bpr⟩ := pr
    dsimp only at hstep
    rw [Prod.mk.injEq] at hstep
    obtain ⟨hes, hst⟩ := hstep
    refine ⟨es1, hes.symm, ?_, ?_⟩
    · exact (ftbLoop_spec im br fuel st.timestamp p.timestamp st.pc st.bp es1 pcr bpr hloop).1
    · exact (ftbLoop_spec im br fuel st.timestamp p.timestamp st.pc st.bp es1 pcr bpr hloop).2

/-- C7, witness: the theorem applied to a concrete predict-mode `FTb`
packet with `k = 1` over an image with a `beq` at `0x1000`. -/
theorem c7_ftb_predict_branch_count_witness :
    ∃ rest,
      ([Entry.new_timed_event Event.BPHit 1 0x1000 0x1000,
        Entry.new_insn beqInsn,
        Entry.new_timed_event Event.NonTakenBranch 5 0x1000 0x1004] : List Entry) =
        Entry.new_timed_event Event.BPHit ftbOnePkt.timestamp 0x1000 0x1000 :: rest ∧
      countBranchEvents rest = ftbOnePkt.timestamp ∧
      ∀ e ∈ rest, e.event = Event.None ∨ e.event = Event.TakenBranch ∨
        e.event = Event.NonTakenBranch :=
  c7_ftb_predict_branch_count imBeq BrMode.BrPredict 8
    { pc := 0x1000, timestamp := 5, bp := .new 4 } ftbOnePkt
    [Entry.new_timed_event Event.BPHit 1 0x1000 0x1000,
     Entry.new_insn beqInsn,
     Entry.new_timed_event Event.NonTakenBranch 5 0x1000 0x1004]
    { pc := 0x1004, timestamp := 5,
      bp := { num_entries := 4,
              counters := [BpState.StrongNotTaken, BpState.WeakNotTaken,
                           BpState.WeakNotTaken, BpState.WeakNotTaken] } }
    (by decide) (by decide) (by decide)

/-- C8, counterexample: a decode pass whose final `FSync` packet has raw
timestamp field `0` broadcasts `Start` with timestamp `10` and then `End`
with timestamp `0` — the timestamps carried on broadcast entries are NOT
monotonically non-decreasing. -/
theorem c8_counterexample :
    ¬ List.Pairwise (· ≤ ·)
      ((trace_decoder imAddi BrMode.BrTarget 16 8 firstSyncPkt [endSyncPkt]).filterMap
        (fun e => e.timestamp)) := by
  intro hp
  have h : (trace_decoder imAddi BrMode.BrTarget 16 8 firstSyncPkt
      [endSyncPkt]).filterMap (fun e => e.timestamp) = [10, 0] := by decide
  rw [h] at hp
  rw [List.pairwise_cons] at hp
  exact absurd (hp.1 0 (by simp)) (by decide)

/-- C8, amended: restricted to entries that carry the running absolute
time (`Start`, branch, jump and trap events, `BPMiss`) — excluding `End`
(which carries the final packet's raw timestamp field), `BPHit` (the
branch count) and `Panic` (zero) — and assuming the running timestamp
cannot overflow `u64`, timestamps are monotonically non-decreasing within
a single decode pass. -/
theorem c8_running_timestamps_monotone (im : List (Nat × InsnInfo)) (br : BrMode) (bp_entries fuel : Nat)
    (first : Packet) (packets : List Packet)
    (hov : first.timestamp + sumTimestamps packets < 2 ^ 64) :
    List.Pairwise (· ≤ ·)
      (runningTimestamps (trace_decoder im br bp_entries fuel first packets)) := by
  rw [trace_decoder]
  rw [runningTimestamps_cons_rt
    (Entry.new_timed_event Event.Start first.timestamp
      (refund_addr first.target_address) 0) _ first.timestamp (by rfl) (by rfl)]
  obtain ⟨hp, hmin⟩ := decodeLoop_ts im br fuel packets
    { pc := refund_addr first.target_address, timestamp := first.timestamp,
      bp := BpDoubleSaturatingCounter.new bp_entries } hov
  rw [List.pairwise_cons]
  exact ⟨fun b hb => hmin b hb, hp⟩

/-- C8, witness: the amended theorem applied to the concrete two-packet
decode pass of the counterexample. -/
theorem c8_running_timestamps_monotone_witness :
    List.Pairwise (· ≤ ·)
      (runningTimestamps
        (trace_decoder imAddi BrMode.BrTarget 16 8 firstSyncPkt [endSyncPkt])) :=
  c8_running_timestamps_monotone imAddi BrMode.BrTarget 16 8 firstSyncPkt [endSyncPkt] (by decide)

/-- C9: a fresh `BpDoubleSaturatingCounter` initializes every counter to
`WeakNotTaken`, so the first `predict` touching any table index returns
`false` (not taken) whatever the `hit` argument is. -/
theorem c9_fresh_predictor_not_taken (n pc : Nat) (hit : Bool) (hn : 0 < n) :
    ((BpDoubleSaturatingCounter.new n).predict pc hit).map Prod.fst = some false := by
  have hne : ¬ (n = 0) := Nat.pos_iff_ne_zero.mp hn
  have hidx : (pc >>> 1) % n < n := Nat.mod_lt _ hn
  simp [BpDoubleSaturatingCounter.predict, BpDoubleSaturatingCounter.new, hne,
    List.get?_eq_getElem?, List.getElem?_replicate, hidx, BpState.judge]

/-- C9, witness: the theorem applied to a fresh 4-entry table at
`pc = 6` with `hit = true`. -/
theorem c9_fresh_predictor_not_taken_witness :
    ((BpDoubleSaturatingCounter.new 4).predict 6 true).map Prod.fst = some false :=
  c9_fresh_predictor_not_taken 4 6 true (by decide)

/-- C10: called with an empty frame stack, `step_uj` returns
`(false, 0, [], none)` for every entry — `TrapReturn` and `ret`-sourced
entries included — without branching on the instruction and without
pushing any tail-call frame; the unwinder (and so the empty stack) is
returned unchanged. -/
theorem c10_step_uj_empty_stack (u : StackUnwinder) (e : Entry) (i : InsnInfo)
    (hev : e.event = Event.UninferableJump ∨ e.event = Event.TrapReturn)
    (hins : u.insn_map.lookup e.arc.1 = some i)
    (hempty : u.frame_stack = []) :
    step_uj u e =
      some ({ success := false, depth := 0, closed := [], opened := none }, u) :=
  stepUj_empty u e i hev hins hempty

/-- C10, witness: the theorem applied to the concrete unwinder with an
empty stack, a `ret` source instruction and a `TrapReturn` entry. -/
theorem c10_step_uj_empty_stack_witness :
    step_uj uwEmpty trapRetEntry =
      some ({ success := false, depth := 0, closed := [], opened := none }, uwEmpty) :=
  c10_step_uj_empty_stack uwEmpty trapRetEntry retInsn (Or.inr rfl) (by decide) rfl

end Tacit
